import Mathlib

/-!
Shallow embedding of the Kibana LSP dispatcher/proxy slice:
  x-pack/plugins/code/server/lsp/controller.ts  (LanguageServerController)
  x-pack/plugins/code/server/lsp/proxy.ts       (LanguageServerProxy)

JS objects used as string-keyed maps (the per-workspace handler map) are
embedded as association lists in insertion order, matching the enumeration
order of string keys in a JS object and the behaviour of property
assignment (overwrite keeps the original position) and `delete`.
Asynchronous functions that can throw or reject are embedded as functions
returning `Except Failure _`; external collaborators (fs.realpathSync,
detectLanguage, InstallManager.status, Date.now) are passed in as an
explicit environment.
-/

namespace KibanaLsp

/-- Modelled from the spec: the LanguageServerStatus enum lives in
common/language_server which is not part of the provided slice; only the
distinctness of its members and the READY / RUNNING members are used. -/
inductive LanguageServerStatus where
  | NOT_INSTALLED
  | INSTALLING
  | READY
  | RUNNING
  deriving DecidableEq

/-- Modelled from the spec: the numeric error-code constants
UnknownErrorCode, UnknownFileLanguage, LanguageServerNotInstalled live in
common/lsp_error_codes which is not part of the provided slice; only their
distinctness is used, so they are embedded as an enumeration. -/
inductive LspErrorCode where
  | UnknownErrorCode
  | UnknownFileLanguage
  | LanguageServerNotInstalled
  deriving DecidableEq

/-- vscode-jsonrpc ResponseError as thrown by the controller: an error code
plus a message. -/
structure ResponseError where
  code : LspErrorCode
  message : String
  deriving DecidableEq

/-- A failure of a controller method: either a ResponseError rejection/throw
(the coded errors of the source) or a JS TypeError (dereferencing a field of
`undefined`), which the source does not catch. -/
inductive Failure where
  | response : ResponseError → Failure
  | typeError : String → Failure
  deriving DecidableEq

instance {ε α : Type} [DecidableEq ε] [DecidableEq α] : DecidableEq (Except ε α) :=
  fun a b =>
    match a, b with
    | .ok x, .ok y =>
      if h : x = y then isTrue (by rw [h]) else isFalse (fun hc => h (Except.ok.inj hc))
    | .error x, .error y =>
      if h : x = y then isTrue (by rw [h]) else isFalse (fun hc => h (Except.error.inj hc))
    | .ok _, .error _ => isFalse (fun hc => Except.noConfusion hc)
    | .error _, .ok _ => isFalse (fun hc => Except.noConfusion hc)

/-- ILanguageServerHandler as seen by the pooling logic: the proxy object is
identified by `id` (object identity: fresh launches get fresh ids) and
carries the optional `lastAccess` timestamp (`lastAccess?: number`,
undefined until first touched by dispatchRequest). -/
structure Handler where
  id : Nat
  lastAccess : Option Nat
  deriving DecidableEq

/-! Association-list embedding of JS maps/objects. `alSet` mirrors property
assignment (replace in place if the key is present, else append), `alErase`
mirrors `delete`, `alLookup` mirrors indexing. -/

def alLookup {κ α : Type} [BEq κ] (m : List (κ × α)) (k : κ) : Option α :=
  (m.find? (fun p => p.1 == k)).map Prod.snd

def alErase {κ α : Type} [BEq κ] (m : List (κ × α)) (k : κ) : List (κ × α) :=
  m.filter (fun p => p.1 != k)

def alSet {κ α : Type} [BEq κ] : List (κ × α) → κ → α → List (κ × α)
  | [], k, v => [(k, v)]
  | p :: rest, k, v => if p.1 == k then (k, v) :: rest else p :: alSet rest k v

/-- LanguageServerHandlerMap: workspace path (string) to handler. -/
abbrev HandlerMap := List (String × Handler)

/-- The union type ILanguageServerHandler | LanguageServerHandlerMap of the
languageServerHandlers field. -/
inductive LanguageServerHandlers where
  | single : Handler → LanguageServerHandlers
  | map : HandlerMap → LanguageServerHandlers
  deriving DecidableEq

/-- LanguageServerData of controller.ts. `running` samples the external
launcher state (`launcher.running`); the launcher object itself is outside
the slice, so launching is embedded as minting a fresh Handler id. -/
structure LanguageServerData where
  name : String
  builtinWorkspaceFolders : Bool
  maxWorkspace : Nat
  languages : List String
  running : Bool
  languageServerHandlers : Option LanguageServerHandlers
  deriving DecidableEq

/-- LspRequest fields read by the controller/proxy slice. -/
structure LspRequest where
  method : String
  resolvedFilePath : Option String
  workspacePath : Option String
  isNotification : Bool
  deriving DecidableEq

/-- External collaborators of the controller, passed explicitly:
fs.realpathSync, detectLanguage, InstallManager.status (keyed by definition
name), the LSP_DETACH flag, and Date.now. -/
structure Env where
  realpath : String → String
  detect : String → Option String
  installStatus : String → LanguageServerStatus
  detach : Bool
  now : Nat

/-- JS comparison h.lastAccess! < oldestHandler.lastAccess!: comparisons
against undefined are false (NaN semantics), so only two present timestamps
compare. -/
def optLt : Option Nat → Option Nat → Bool
  | some a, some b => decide (a < b)
  | _, _ => false

/-- One step of the forEach scan in the eviction branch of
findOrCreateHandler: replace the current oldest candidate exactly when the
scanned entry has a strictly smaller lastAccess. -/
def evictStep (acc p : String × Handler) : String × Handler :=
  if optLt p.2.lastAccess acc.2.lastAccess then p else acc

/-- Numeric view of a lastAccess known to be present. -/
def hval (h : Handler) : Nat := h.lastAccess.getD 0

/-- findOrCreateHandler (controller.ts:188-230), acting on the entry's
handler map. Returns the chosen handler, the updated map, the next fresh
launch id, and whether a new proxy was launched. Mirrors the source: missing
workspacePath throws UnknownErrorCode; the lookup key is the canonicalized
realPath; below capacity a fresh proxy is launched and registered under
realPath; at capacity the entry with smallest lastAccess (first encountered
wins) is deleted and the same handler re-registered under the raw
request.workspacePath (source line 226). Destructuring handlerArray[0] of an
empty array is a JS TypeError. -/
def findOrCreateHandler (realpath : String → String) (maxWorkspace : Nat)
    (handlers : HandlerMap) (nextId : Nat) (workspacePath : Option String) :
    Except Failure (Handler × HandlerMap × Nat × Bool) :=
  match workspacePath with
  | none => .error (.response ⟨.UnknownErrorCode, "no workspace in request?"⟩)
  | some wsPath =>
    match alLookup handlers (realpath wsPath) with
    | some handler => .ok (handler, handlers, nextId, false)
    | none =>
      if handlers.length < maxWorkspace then
        let handler : Handler := { id := nextId, lastAccess := none }
        .ok (handler, alSet handlers (realpath wsPath) handler, nextId + 1, true)
      else
        match handlers with
        | [] => .error (.typeError "cannot destructure element 0 of empty handler array")
        | first :: rest =>
          let oldest := (first :: rest).foldl evictStep first
          .ok (oldest.2, alSet (alErase (first :: rest) oldest.1) wsPath oldest.2, nextId, false)

/-- The body of dispatchRequest after findLanguageServer succeeded
(controller.ts:90-104), acting on one entry. Built-in mode: lazily launch
the single shared handler if the launcher is not running, else use the
stored one (using an absent or map-shaped handler as a single handler is a
TypeError). Per-workspace mode: initialize the map if absent, run
findOrCreateHandler, then set handler.lastAccess = Date.now() (visible
through the map, since the map holds the same object). The request payload
forwarding (handler.handleRequest) is outside this routing model; the
result is the handler the request is forwarded to. -/
def dispatchToEntry (env : Env) (ls : LanguageServerData) (request : LspRequest)
    (nextId : Nat) : Except Failure Handler × LanguageServerData × Nat × Bool :=
  if ls.builtinWorkspaceFolders then
    if ls.running then
      match ls.languageServerHandlers with
      | some (.single h) => (.ok h, ls, nextId, false)
      | _ => (.error (.typeError "handleRequest of undefined"), ls, nextId, false)
    else
      let h : Handler := { id := nextId, lastAccess := none }
      (.ok h, { ls with languageServerHandlers := some (.single h) }, nextId + 1, true)
  else
    let m : HandlerMap :=
      match ls.languageServerHandlers with
      | some (.map m) => m
      | _ => []
    match findOrCreateHandler env.realpath ls.maxWorkspace m nextId request.workspacePath with
    | .error e => (.error e, { ls with languageServerHandlers := some (.map m) }, nextId, false)
    | .ok (h, m', nid', launched) =>
      let touched : Handler := { h with lastAccess := some env.now }
      (.ok touched,
       { ls with
           languageServerHandlers := some (.map (m'.map (fun p =>
             if p.2.id == h.id then (p.1, { p.2 with lastAccess := some env.now }) else p))) },
       nid', launched)

/-- findLanguageServer (controller.ts:232-249): resolve the entry for a
language; throw UnknownFileLanguage when no definition serves it; throw
LanguageServerNotInstalled when not detached and the install status is not
READY. -/
def findLanguageServer (env : Env) (lsMap : String → Option LanguageServerData)
    (lang : String) : Except Failure LanguageServerData :=
  match lsMap lang with
  | some ls =>
    if !env.detach && !(env.installStatus ls.name == LanguageServerStatus.READY) then
      .error (.response ⟨.LanguageServerNotInstalled,
        "language server " ++ lang ++ " not installed"⟩)
    else
      .ok ls
  | none => .error (.response ⟨.UnknownFileLanguage, "unsupported language " ++ lang⟩)

/-- dispatchRequest (controller.ts:87-113). A falsy language (detection
returned nothing) rejects with UnknownFileLanguage; otherwise the request is
dispatched to the resolved entry. Returns the routing result, the updated
entry (none when no entry was reached), the next fresh id, and whether a
launch happened. -/
def dispatchRequest (env : Env) (lsMap : String → Option LanguageServerData)
    (lang : Option String) (request : LspRequest) (nextId : Nat) :
    Except Failure Handler × Option LanguageServerData × Nat × Bool :=
  match lang with
  | some l =>
    match findLanguageServer env lsMap l with
    | .ok ls =>
      let r := dispatchToEntry env ls request nextId
      (r.1, some r.2.1, r.2.2.1, r.2.2.2)
    | .error e => (.error e, none, nextId, false)
  | none =>
    (.error (.response ⟨.UnknownFileLanguage, "cant detect language from file"⟩),
     none, nextId, false)

/-- file.replace of the first occurrence of the file:// scheme
(controller.ts:78), on the character list of the path. -/
def removeFirstOccAux : List Char → List Char → List Char
  | [], _ => []
  | c :: rest, pat =>
    if pat.isPrefixOf (c :: rest) then (c :: rest).drop pat.length
    else c :: removeFirstOccAux rest pat

def removeFileScheme (s : String) : String :=
  ⟨removeFirstOccAux s.data "file://".data⟩

/-- handleRequest (controller.ts:74-85): with a resolvedFilePath, detect the
language (on the path with the file:// scheme removed) and dispatch;
without one, reject with the generic UnknownErrorCode. -/
def handleRequest (env : Env) (lsMap : String → Option LanguageServerData)
    (request : LspRequest) (nextId : Nat) :
    Except Failure Handler × Option LanguageServerData × Nat × Bool :=
  match request.resolvedFilePath with
  | some file => dispatchRequest env lsMap (env.detect (removeFileScheme file)) request nextId
  | none =>
    (.error (.response ⟨.UnknownErrorCode, "cant detect language without a file"⟩),
     none, nextId, false)

/-- unloadWorkspace restricted to one entry (controller.ts:153-170). In
built-in mode the unload is forwarded to the shared handler (no map
change); in per-workspace mode the canonical path is looked up and, when
mapped, the handler is told to unload and the mapping deleted. -/
def unloadWorkspaceEntry (env : Env) (ls : LanguageServerData) (dir : String) :
    LanguageServerData :=
  match ls.languageServerHandlers with
  | none => ls
  | some hs =>
    if ls.builtinWorkspaceFolders then ls
    else
      match hs with
      | .single _ => ls
      | .map m =>
        match alLookup m (env.realpath dir) with
        | some _ =>
          { ls with languageServerHandlers := some (.map (alErase m (env.realpath dir))) }
        | none => ls

/-- status (controller.ts:172-182): indexing languageServerMap with an
unknown language yields undefined, so reading ls.definition is a JS
TypeError, not a returned status; otherwise READY upgrades to RUNNING when
the launcher is running. -/
def status (env : Env) (lsMap : String → Option LanguageServerData)
    (lang : String) : Except Failure LanguageServerStatus :=
  match lsMap lang with
  | none => .error (.typeError "cannot read property definition of undefined")
  | some ls =>
    let s := env.installStatus ls.name
    if s == LanguageServerStatus.READY then
      if ls.running then .ok LanguageServerStatus.RUNNING else .ok s
    else .ok s

/-- supportLanguage (controller.ts:184-186): membership test in the
language-server map. -/
def supportLanguage (lsMap : String → Option LanguageServerData) (lang : String) : Bool :=
  (lsMap lang).isSome

/-- Number of live handlers in a per-workspace entry's map. -/
def entryCount (ls : LanguageServerData) : Nat :=
  match ls.languageServerHandlers with
  | some (.map m) => m.length
  | _ => 0

/-- One pool-affecting operation on an entry: a dispatch at a given clock,
a direct findOrCreateHandler, or an unloadWorkspace. -/
inductive PoolOp where
  | dispatchOp : LspRequest → Nat → PoolOp
  | fochOp : Option String → PoolOp
  | unloadOp : String → PoolOp

/-- Apply findOrCreateHandler to the entry's map and store the result back,
as dispatchRequest does (including initializing an absent map to an empty
object even on failure). -/
def applyFoch (env : Env) (ls : LanguageServerData) (nid : Nat) (ws : Option String) :
    LanguageServerData × Nat :=
  if ls.builtinWorkspaceFolders then (ls, nid)
  else
    let m : HandlerMap :=
      match ls.languageServerHandlers with
      | some (.map m) => m
      | _ => []
    match findOrCreateHandler env.realpath ls.maxWorkspace m nid ws with
    | .error _ => ({ ls with languageServerHandlers := some (.map m) }, nid)
    | .ok (_, m', nid', _) => ({ ls with languageServerHandlers := some (.map m') }, nid')

/-- Run a sequence of pool operations against one entry. -/
def runOps (env : Env) : List PoolOp → LanguageServerData × Nat → LanguageServerData × Nat
  | [], s => s
  | op :: ops, (ls, nid) =>
    runOps env ops
      (match op with
       | .dispatchOp req now =>
         let r := dispatchToEntry { env with now := now } ls req nid
         (r.2.1, r.2.2.1)
       | .fochOp ws => applyFoch env ls nid ws
       | .unloadOp dir => (unloadWorkspaceEntry env ls dir, nid))

/-- Projection: error code of a routing result, if it failed with a coded
ResponseError. -/
def failureCode {α : Type} : Except Failure α → Option LspErrorCode
  | .error (.response r) => some r.code
  | _ => none

/-- Projection: identity of the handler a request was routed to. -/
def resultHandlerId : Except Failure Handler → Option Nat
  | .ok h => some h.id
  | .error _ => none

/-! Connection proxy (proxy.ts). The JSON-RPC bookkeeping of
LanguageServerProxy: the proxy-local sequence counter, the replies table
(request id to the caller's resolve/reject continuation, identified here by
a caller token), the closed flag, and the current client connection (by
identity). Sockets are below this model; connect takes the dial outcome as
an oracle. -/

structure ProxyState where
  sequenceNumber : Nat
  replies : List (Nat × Nat)
  closed : Bool
  clientConnection : Option Nat
  deriving DecidableEq

/-- Observable actions of receiveRequest, in program order: registering the
reply continuation in the replies table, and emitting the message on the
http emitter. -/
inductive ProxyEvent where
  | registeredReply : Nat → ProxyEvent
  | emittedMessage : Nat → ProxyEvent
  deriving DecidableEq

/-- The state of the promise receiveRequest hands back: pending on a reply
with the given id, or already resolved (with no value). -/
inductive PromiseState where
  | pending : Nat → PromiseState
  | resolvedEmpty : PromiseState
  deriving DecidableEq

structure ReceiveOut where
  state : ProxyState
  promise : PromiseState
  events : List ProxyEvent
  messageId : Nat
  deriving DecidableEq

/-- receiveRequest (proxy.ts:75-95): the message id is the current
sequenceNumber, which is post-incremented; a notification emits the message
and resolves immediately without touching the replies table; otherwise the
continuation is stored under the id and then the message is emitted. -/
def receiveRequest (st : ProxyState) (caller : Nat) (isNotification : Bool) : ReceiveOut :=
  let msgId := st.sequenceNumber
  let st1 : ProxyState := { st with sequenceNumber := st.sequenceNumber + 1 }
  if isNotification then
    { state := st1
      promise := .resolvedEmpty
      events := [.emittedMessage msgId]
      messageId := msgId }
  else
    { state := { st1 with replies := alSet st1.replies msgId caller }
      promise := .pending msgId
      events := [.registeredReply msgId, .emittedMessage msgId]
      messageId := msgId }

/-- Observable actions of exit, in program order. -/
inductive ExitEvent where
  | shutdownRequest
  | exitNotification
  | disposeConn
  | exitSignal
  deriving DecidableEq

/-- exit (proxy.ts:148-166): with a live client connection, send the
shutdown request, then the exit notification, and dispose the inbound
connection; in every case set closed and emit the exit signal. The await of
the shutdown reply is modelled as succeeding. -/
def exit (st : ProxyState) : ProxyState × List ExitEvent :=
  match st.clientConnection with
  | some _ =>
    ({ st with closed := true },
     [.shutdownRequest, .exitNotification, .disposeConn, .exitSignal])
  | none => ({ st with closed := true }, [.exitSignal])

/-- connect (proxy.ts:216-252): an existing client connection is returned
as is; otherwise closed is reset to false and the socket dials, producing a
fresh connection when the dial succeeds. The shared connectingPromise
machinery collapses to the dial outcome oracle. -/
def connect (st : ProxyState) (freshConn : Nat) (dialSucceeds : Bool) :
    ProxyState × Option Nat :=
  match st.clientConnection with
  | some c => (st, some c)
  | none =>
    if dialSucceeds then
      ({ st with closed := false, clientConnection := some freshConn }, some freshConn)
    else ({ st with closed := false }, none)

/-! Helper lemmas about the association-list embedding. -/

theorem alLookup_nil {κ α : Type} [BEq κ] (k : κ) :
    alLookup ([] : List (κ × α)) k = none := rfl

theorem alLookup_eq_none_iff {κ α : Type} [BEq κ] [LawfulBEq κ]
    (m : List (κ × α)) (k : κ) :
    alLookup m k = none ↔ ∀ p ∈ m, p.1 ≠ k := by
  simp [alLookup, List.find?_eq_none]

theorem alSet_lookup_self {κ α : Type} [BEq κ] [LawfulBEq κ]
    (m : List (κ × α)) (k : κ) (v : α) :
    alLookup (alSet m k v) k = some v := by
  induction m with
  | nil => simp [alSet, alLookup]
  | cons p rest ih =>
    by_cases h : p.1 == k
    · simp [alSet, h, alLookup]
    · simp only [alSet, h, Bool.false_eq_true, if_false]
      simpa [alLookup, List.find?, h] using ih

theorem alSet_lookup_ne {κ α : Type} [BEq κ] [LawfulBEq κ]
    (m : List (κ × α)) (k k' : κ) (v : α) (hk : k ≠ k') :
    alLookup (alSet m k v) k' = alLookup m k' := by
  have hkk : (k == k') = false := by simp [hk]
  induction m with
  | nil => simp [alSet, alLookup, List.find?, hkk]
  | cons p rest ih =>
    by_cases h : p.1 == k
    · have hp : p.1 = k := by simpa using h
      simp [alSet, h, alLookup, List.find?, hp, hkk]
    · simp only [alSet, h, Bool.false_eq_true, if_false]
      by_cases h2 : p.1 == k'
      · simp [alLookup, List.find?, h2]
      · simpa [alLookup, List.find?, h2] using ih

theorem alSet_of_lookup_none {κ α : Type} [BEq κ] [LawfulBEq κ]
    (m : List (κ × α)) (k : κ) (v : α) (h : alLookup m k = none) :
    alSet m k v = m ++ [(k, v)] := by
  induction m with
  | nil => rfl
  | cons p rest ih =>
    rw [alLookup_eq_none_iff] at h
    have hp : ¬ (p.1 == k) = true := by
      simpa using h p (List.mem_cons_self p rest)
    simp only [alSet, hp, Bool.false_eq_true, if_false, List.cons_append, List.cons.injEq,
      true_and]
    apply ih
    rw [alLookup_eq_none_iff]
    exact fun q hq => h q (List.mem_cons_of_mem p hq)

theorem alSet_length_le {κ α : Type} [BEq κ] (m : List (κ × α)) (k : κ) (v : α) :
    (alSet m k v).length ≤ m.length + 1 := by
  induction m with
  | nil => simp [alSet]
  | cons p rest ih =>
    by_cases h : p.1 == k
    · simp [alSet, h]
    · simp only [alSet, h, Bool.false_eq_true, if_false, List.length_cons]
      omega

theorem alErase_lookup_self {κ α : Type} [BEq κ] [LawfulBEq κ]
    (m : List (κ × α)) (k : κ) :
    alLookup (alErase m k) k = none := by
  rw [alLookup_eq_none_iff]
  intro p hp
  have := List.of_mem_filter hp
  simpa [bne] using this

theorem alErase_length_le {κ α : Type} [BEq κ] (m : List (κ × α)) (k : κ) :
    (alErase m k).length ≤ m.length :=
  List.length_filter_le _ m

theorem alErase_length_lt {κ α : Type} [BEq κ] [LawfulBEq κ]
    (m : List (κ × α)) (k : κ) (p : κ × α) (hp : p ∈ m) (hk : p.1 = k) :
    (alErase m k).length < m.length := by
  induction m with
  | nil => cases hp
  | cons q rest ih =>
    rcases List.mem_cons.mp hp with h | h
    · subst h
      have : (p.1 != k) = false := by simp [bne, hk]
      simp only [alErase, List.filter_cons, this, if_false]
      calc (List.filter (fun r => r.1 != k) rest).length
          ≤ rest.length := List.length_filter_le _ rest
        _ < (p :: rest).length := by simp
    · by_cases hq : (q.1 != k) = true
      · simp only [alErase, List.filter_cons, hq, if_true, List.length_cons]
        exact Nat.succ_lt_succ (ih h)
      · simp only [alErase, List.filter_cons, hq, if_false, List.length_cons]
        exact Nat.lt_succ_of_lt (ih h)

theorem alLookup_append_none {κ α : Type} [BEq κ]
    (m l : List (κ × α)) (k : κ) (h : alLookup m k = none) :
    alLookup (m ++ l) k = alLookup l k := by
  induction m with
  | nil => simp
  | cons p rest ih =>
    by_cases hp : (p.1 == k) = true
    · simp [alLookup, List.find?, hp] at h
    · simp only [alLookup, List.find?, hp, List.cons_append] at h ⊢
      exact ih h

theorem alLookup_singleton_self {κ α : Type} [BEq κ] [LawfulBEq κ] (k : κ) (v : α) :
    alLookup [(k, v)] k = some v := by
  simp [alLookup, List.find?]

theorem alLookup_singleton_ne {κ α : Type} [BEq κ] [LawfulBEq κ]
    (k k' : κ) (v : α) (h : k ≠ k') :
    alLookup [(k, v)] k' = none := by
  have hkk : (k == k') = false := by simp [h]
  simp [alLookup, List.find?, hkk]

/-! Helper lemmas about the eviction scan. -/

theorem optLt_self (a : Option Nat) : optLt a a = false := by
  cases a <;> simp [optLt]

theorem evictStep_self (p : String × Handler) : evictStep p p = p := by
  simp [evictStep, optLt_self]

theorem optLt_eq_hval (a b : Handler) (ha : a.lastAccess.isSome = true)
    (hb : b.lastAccess.isSome = true) :
    optLt a.lastAccess b.lastAccess = decide (hval a < hval b) := by
  obtain ⟨x, hx⟩ := Option.isSome_iff_exists.mp ha
  obtain ⟨y, hy⟩ := Option.isSome_iff_exists.mp hb
  simp [optLt, hval, hx, hy]

theorem foldl_evictStep_mem (l : List (String × Handler)) (acc : String × Handler) :
    l.foldl evictStep acc = acc ∨ l.foldl evictStep acc ∈ l := by
  induction l generalizing acc with
  | nil => left; rfl
  | cons x xs ih =>
    simp only [List.foldl_cons]
    by_cases hc : optLt x.2.lastAccess acc.2.lastAccess = true
    · have hstep : evictStep acc x = x := by simp [evictStep, hc]
      rw [hstep]
      rcases ih x with h | h
      · right; rw [h]; exact List.mem_cons_self x xs
      · right; exact List.mem_cons_of_mem x h
    · have hstep : evictStep acc x = acc := by simp [evictStep, hc]
      rw [hstep]
      rcases ih acc with h | h
      · left; exact h
      · right; exact List.mem_cons_of_mem x h

theorem foldl_evictStep_spec (l : List (String × Handler)) (acc : String × Handler)
    (hl : ∀ p ∈ l, (p.2.lastAccess).isSome = true)
    (hacc : (acc.2.lastAccess).isSome = true) :
    (l.foldl evictStep acc = acc ∧
       ∀ p ∈ l, ¬ hval p.2 < hval (l.foldl evictStep acc).2) ∨
    (∃ l₁ l₂, l = l₁ ++ (l.foldl evictStep acc) :: l₂ ∧
       hval (l.foldl evictStep acc).2 < hval acc.2 ∧
       (∀ p ∈ l₁, hval (l.foldl evictStep acc).2 < hval p.2) ∧
       (∀ p ∈ l₂, ¬ hval p.2 < hval (l.foldl evictStep acc).2)) := by
  induction l generalizing acc with
  | nil => left; exact ⟨rfl, by simp⟩
  | cons x xs ih =>
    have hx : (x.2.lastAccess).isSome = true := hl x (List.mem_cons_self x xs)
    have hxs : ∀ p ∈ xs, (p.2.lastAccess).isSome = true :=
      fun p hp => hl p (List.mem_cons_of_mem x hp)
    simp only [List.foldl_cons]
    by_cases hlt : hval x.2 < hval acc.2
    · have hstep : evictStep acc x = x := by
        simp [evictStep, optLt_eq_hval x.2 acc.2 hx hacc, hlt]
      rw [hstep]
      rcases ih x hxs hx with ⟨hr, hmin⟩ | ⟨l₁, l₂, heq, hlt2, hpre, hpost⟩
      · right
        refine ⟨[], xs, by simp [hr], by rw [hr]; exact hlt, by simp, ?_⟩
        exact hmin
      · right
        refine ⟨x :: l₁, l₂, by rw [List.cons_append, ← heq], lt_trans hlt2 hlt, ?_, hpost⟩
        intro p hp
        rcases List.mem_cons.mp hp with h | h
        · rw [h]; exact hlt2
        · exact hpre p h
    · have hstep : evictStep acc x = acc := by
        simp [evictStep, optLt_eq_hval x.2 acc.2 hx hacc, hlt]
      rw [hstep]
      rcases ih acc hxs hacc with ⟨hr, hmin⟩ | ⟨l₁, l₂, heq, hlt2, hpre, hpost⟩
      · left
        refine ⟨hr, ?_⟩
        intro p hp
        rcases List.mem_cons.mp hp with h | h
        · rw [h, hr]; exact hlt
        · exact hmin p h
      · right
        refine ⟨x :: l₁, l₂, by rw [List.cons_append, ← heq], hlt2, ?_, hpost⟩
        intro p hp
        rcases List.mem_cons.mp hp with h | h
        · rw [h]; exact lt_of_lt_of_le hlt2 (Nat.le_of_not_lt hlt)
        · exact hpre p h

theorem foldl_evictStep_argmin (first : String × Handler) (rest : List (String × Handler))
    (hall : ∀ p ∈ first :: rest, (p.2.lastAccess).isSome = true) :
    ∃ l₁ l₂, first :: rest = l₁ ++ ((first :: rest).foldl evictStep first) :: l₂ ∧
      (∀ p ∈ l₁, hval ((first :: rest).foldl evictStep first).2 < hval p.2) ∧
      (∀ p ∈ l₂, hval ((first :: rest).foldl evictStep first).2 ≤ hval p.2) := by
  have hfirst : (first.2.lastAccess).isSome = true :=
    hall first (List.mem_cons_self first rest)
  have hrest : ∀ p ∈ rest, (p.2.lastAccess).isSome = true :=
    fun p hp => hall p (List.mem_cons_of_mem first hp)
  have hfold : (first :: rest).foldl evictStep first = rest.foldl evictStep first := by
    simp [List.foldl_cons, evictStep_self]
  rw [hfold]
  rcases foldl_evictStep_spec rest first hrest hfirst with
    ⟨hr, hmin⟩ | ⟨l₁, l₂, heq, hlt2, hpre, hpost⟩
  · refine ⟨[], rest, by simp [hr], by simp, ?_⟩
    intro p hp
    exact Nat.le_of_not_lt (hmin p hp)
  · refine ⟨first :: l₁, l₂, by rw [List.cons_append, ← heq],
      ?_, fun p hp => Nat.le_of_not_lt (hpost p hp)⟩
    intro p hp
    rcases List.mem_cons.mp hp with h | h
    · rw [h]; exact hlt2
    · exact hpre p h

/-- The entry the eviction branch selects: the fold of evictStep over the
whole handler array, seeded with its first element (controller.ts:217-224).
-/
def oldestEntry (first : String × Handler) (rest : List (String × Handler)) :
    String × Handler :=
  (first :: rest).foldl evictStep first

theorem find?_first_min (r : String × Handler) (l₁ l₂ : List (String × Handler))
    (hpre : ∀ p ∈ l₁, ¬ hval p.2 ≤ hval r.2) :
    (l₁ ++ r :: l₂).find? (fun p => decide (hval p.2 ≤ hval r.2)) = some r := by
  induction l₁ with
  | nil =>
    simp only [List.nil_append]
    exact List.find?_cons_of_pos _ (by simp)
  | cons x xs ih =>
    have hx : ¬ hval x.2 ≤ hval r.2 := hpre x (List.mem_cons_self x xs)
    simp only [List.cons_append]
    rw [List.find?_cons_of_neg _ (by simpa using hx)]
    exact ih fun p hp => hpre p (List.mem_cons_of_mem x hp)

theorem oldestEntry_mem (first : String × Handler) (rest : List (String × Handler)) :
    oldestEntry first rest ∈ first :: rest := by
  unfold oldestEntry
  rcases foldl_evictStep_mem (first :: rest) first with h | h
  · rw [h]; exact List.mem_cons_self first rest
  · exact h

/-- C1: at capacity (live-handler count equals maxWorkspace), for a
workspace path with no current mapping (neither canonical nor raw key is
present), findOrCreateHandler returns the pooled handler with the smallest
lastAccess, ties broken by first-encountered iteration order (formalized:
the selected entry is the first entry of the pool whose lastAccess attains
the minimum), launches nothing (the same instance is reused, no fresh id is
consumed), deletes the old workspace-path mapping and re-registers the same
handler under the new workspace path, and afterwards the old path is not
present in the map while the new path maps to that instance. -/
theorem C1_at_capacity_evicts_lru (realpath : String → String) (maxWorkspace : Nat)
    (first : String × Handler) (rest : List (String × Handler))
    (nextId : Nat) (ws : String)
    (hcap : (first :: rest).length = maxWorkspace)
    (hsome : ∀ p ∈ first :: rest, (p.2.lastAccess).isSome = true)
    (hmiss : alLookup (first :: rest) (realpath ws) = none)
    (hmissRaw : alLookup (first :: rest) ws = none) :
    findOrCreateHandler realpath maxWorkspace (first :: rest) nextId (some ws) =
      .ok ((oldestEntry first rest).2,
           alSet (alErase (first :: rest) (oldestEntry first rest).1) ws
             (oldestEntry first rest).2,
           nextId, false) ∧
    oldestEntry first rest ∈ first :: rest ∧
    (∀ p ∈ first :: rest, hval (oldestEntry first rest).2 ≤ hval p.2) ∧
    (first :: rest).find?
        (fun p => decide (hval p.2 ≤ hval (oldestEntry first rest).2)) =
      some (oldestEntry first rest) ∧
    alLookup (alSet (alErase (first :: rest) (oldestEntry first rest).1) ws
        (oldestEntry first rest).2) (oldestEntry first rest).1 = none ∧
    alLookup (alSet (alErase (first :: rest) (oldestEntry first rest).1) ws
        (oldestEntry first rest).2) ws = some (oldestEntry first rest).2 := by
  have hnlt : ¬ ((first :: rest).length < maxWorkspace) := by omega
  obtain ⟨l₁, l₂, heq, hpre, hpost⟩ := foldl_evictStep_argmin first rest hsome
  have hfold_eq : (first :: rest).foldl evictStep first = oldestEntry first rest := rfl
  rw [hfold_eq] at heq hpre hpost
  have hrmem : oldestEntry first rest ∈ first :: rest := oldestEntry_mem first rest
  have hkeys : ∀ p ∈ (first :: rest), p.1 ≠ ws :=
    (alLookup_eq_none_iff _ _).mp hmissRaw
  have hne : ws ≠ (oldestEntry first rest).1 :=
    fun h => hkeys (oldestEntry first rest) hrmem h.symm
  have hmin : ∀ p ∈ first :: rest, hval (oldestEntry first rest).2 ≤ hval p.2 := by
    intro p hp
    rw [heq] at hp
    rcases List.mem_append.mp hp with h | h
    · exact le_of_lt (hpre p h)
    · rcases List.mem_cons.mp h with h | h
      · rw [h]
      · exact hpost p h
  refine ⟨?_, hrmem, hmin, ?_, ?_, ?_⟩
  · simp only [findOrCreateHandler, hmiss, if_neg hnlt, oldestEntry]
  · rw [heq]
    apply find?_first_min
    intro p hp
    exact Nat.not_le_of_lt (hpre p hp)
  · have hwsErased :
        alLookup (alErase (first :: rest) (oldestEntry first rest).1) ws = none := by
      rw [alLookup_eq_none_iff]
      intro p hp
      exact hkeys p (List.mem_of_mem_filter hp)
    rw [alSet_of_lookup_none _ _ _ hwsErased,
        alLookup_append_none _ _ _ (alErase_lookup_self _ _)]
    exact alLookup_singleton_ne _ _ _ hne
  · exact alSet_lookup_self _ _ _

def rpId : String → String := fun s => s

/-- Witness for C1: a pool of two handlers at capacity 2 with lastAccess 5
and 3; requesting a third workspace evicts the second entry (lastAccess 3),
rekeys it, and the old key is gone. -/
theorem C1_witness :
    findOrCreateHandler rpId 2 [("a", ⟨0, some 5⟩), ("b", ⟨1, some 3⟩)] 7 (some "c") =
      .ok (⟨1, some 3⟩, [("a", ⟨0, some 5⟩), ("c", ⟨1, some 3⟩)], 7, false) ∧
    alLookup [("a", (⟨0, some 5⟩ : Handler)), ("c", ⟨1, some 3⟩)] "b" = none ∧
    alLookup [("a", (⟨0, some 5⟩ : Handler)), ("c", ⟨1, some 3⟩)] "c" = some ⟨1, some 3⟩ := by
  have h := C1_at_capacity_evicts_lru rpId 2 ("a", ⟨0, some 5⟩) [("b", ⟨1, some 3⟩)] 7 "c"
    (by decide) (by decide) (by decide) (by decide)
  obtain ⟨h1, _, _, _, h5, h6⟩ := h
  have hold : oldestEntry ("a", (⟨0, some 5⟩ : Handler)) [("b", ⟨1, some 3⟩)] =
      ("b", ⟨1, some 3⟩) := by decide
  refine ⟨?_, ?_, ?_⟩
  · rw [hold] at h1
    simpa using h1
  · rw [hold] at h5
    simpa using h5
  · rw [hold] at h6
    simpa using h6

theorem findOrCreateHandler_length (rp : String → String) (mx : Nat) (m : HandlerMap)
    (k : Nat) (ws : Option String) (out : Handler × HandlerMap × Nat × Bool)
    (he : findOrCreateHandler rp mx m k ws = .ok out) :
    (m.length ≤ mx → out.2.1.length ≤ mx) ∧ (out.2.2.2 = true → m.length < mx) := by
  cases ws with
  | none => simp [findOrCreateHandler] at he
  | some wsp =>
    cases hl : alLookup m (rp wsp) with
    | some hh =>
      have hcomp : findOrCreateHandler rp mx m k (some wsp) = .ok (hh, m, k, false) := by
        simp [findOrCreateHandler, hl]
      have hout : (hh, m, k, false) = out := by
        simpa using hcomp.symm.trans he
      subst hout
      exact ⟨fun hle => hle, fun hT => by simp at hT⟩
    | none =>
      by_cases hlt : m.length < mx
      · have hcomp : findOrCreateHandler rp mx m k (some wsp) =
            .ok (⟨k, none⟩, alSet m (rp wsp) ⟨k, none⟩, k + 1, true) := by
          simp [findOrCreateHandler, hl, if_pos hlt]
        have hout : ((⟨k, none⟩ : Handler), alSet m (rp wsp) ⟨k, none⟩, k + 1, true) = out := by
          simpa using hcomp.symm.trans he
        subst hout
        refine ⟨fun _ => ?_, fun _ => hlt⟩
        calc (alSet m (rp wsp) ⟨k, none⟩).length ≤ m.length + 1 := alSet_length_le _ _ _
          _ ≤ mx := hlt
      · cases m with
        | nil =>
          have hlt0 : ¬ (0 < mx) := by simpa using hlt
          simp [findOrCreateHandler, hl, if_neg hlt0] at he
        | cons first rest =>
          have hcomp : findOrCreateHandler rp mx (first :: rest) k (some wsp) =
              .ok (((first :: rest).foldl evictStep first).2,
                alSet (alErase (first :: rest) ((first :: rest).foldl evictStep first).1)
                  wsp ((first :: rest).foldl evictStep first).2, k, false) := by
            simp [findOrCreateHandler, hl, if_neg hlt]
            exact Nat.le_of_not_lt (by simpa using hlt)
          have hout : (((first :: rest).foldl evictStep first).2,
              alSet (alErase (first :: rest) ((first :: rest).foldl evictStep first).1)
                wsp ((first :: rest).foldl evictStep first).2, k, false) = out := by
            simpa using hcomp.symm.trans he
          subst hout
          refine ⟨fun hle => ?_, fun hT => by simp at hT⟩
          have hmem : (first :: rest).foldl evictStep first ∈ first :: rest :=
            oldestEntry_mem first rest
          have herase :
              (alErase (first :: rest) ((first :: rest).foldl evictStep first).1).length <
                (first :: rest).length :=
            alErase_length_lt _ _ _ hmem rfl
          calc (alSet (alErase (first :: rest) ((first :: rest).foldl evictStep first).1)
                  wsp ((first :: rest).foldl evictStep first).2).length
              ≤ (alErase (first :: rest)
                  ((first :: rest).foldl evictStep first).1).length + 1 :=
                alSet_length_le _ _ _
            _ ≤ (first :: rest).length := herase
            _ ≤ mx := hle

theorem dispatchToEntry_entryCount (env : Env) (ls : LanguageServerData)
    (request : LspRequest) (nid : Nat) (hinv : entryCount ls ≤ ls.maxWorkspace) :
    entryCount (dispatchToEntry env ls request nid).2.1 ≤ ls.maxWorkspace ∧
    (dispatchToEntry env ls request nid).2.1.maxWorkspace = ls.maxWorkspace := by
  cases hb : ls.builtinWorkspaceFolders with
  | true =>
    cases hr : ls.running with
    | true =>
      cases hh : ls.languageServerHandlers with
      | none => simpa [dispatchToEntry, hb, hr, hh] using hinv
      | some hs =>
        cases hs with
        | single h => simpa [dispatchToEntry, hb, hr, hh] using hinv
        | map m => simpa [dispatchToEntry, hb, hr, hh] using hinv
    | false => simp [dispatchToEntry, hb, hr, entryCount]
  | false =>
    have hmlen :
        (match ls.languageServerHandlers with
          | some (.map m) => m
          | _ => ([] : HandlerMap)).length ≤ ls.maxWorkspace := by
      cases hh : ls.languageServerHandlers with
      | none => simp
      | some hs =>
        cases hs with
        | single h => simp
        | map m => simpa [entryCount, hh] using hinv
    cases hf : findOrCreateHandler env.realpath ls.maxWorkspace
        (match ls.languageServerHandlers with
          | some (.map m) => m
          | _ => ([] : HandlerMap)) nid request.workspacePath with
    | error e => simpa [dispatchToEntry, hb, hf, entryCount] using hmlen
    | ok out =>
      obtain ⟨h, m', nid', L⟩ := out
      have hlen := (findOrCreateHandler_length _ _ _ _ _ _ hf).1 hmlen
      simpa [dispatchToEntry, hb, hf, entryCount] using hlen

theorem applyFoch_entryCount (env : Env) (ls : LanguageServerData) (nid : Nat)
    (ws : Option String) (hinv : entryCount ls ≤ ls.maxWorkspace) :
    entryCount (applyFoch env ls nid ws).1 ≤ ls.maxWorkspace ∧
    (applyFoch env ls nid ws).1.maxWorkspace = ls.maxWorkspace := by
  cases hb : ls.builtinWorkspaceFolders with
  | true => simpa [applyFoch, hb] using hinv
  | false =>
    have hmlen :
        (match ls.languageServerHandlers with
          | some (.map m) => m
          | _ => ([] : HandlerMap)).length ≤ ls.maxWorkspace := by
      cases hh : ls.languageServerHandlers with
      | none => simp
      | some hs =>
        cases hs with
        | single h => simp
        | map m => simpa [entryCount, hh] using hinv
    cases hf : findOrCreateHandler env.realpath ls.maxWorkspace
        (match ls.languageServerHandlers with
          | some (.map m) => m
          | _ => ([] : HandlerMap)) nid ws with
    | error e => simpa [applyFoch, hb, hf, entryCount] using hmlen
    | ok out =>
      obtain ⟨h, m', nid', L⟩ := out
      have hlen := (findOrCreateHandler_length _ _ _ _ _ _ hf).1 hmlen
      simpa [applyFoch, hb, hf, entryCount] using hlen

theorem unloadWorkspaceEntry_entryCount (env : Env) (ls : LanguageServerData)
    (dir : String) (hinv : entryCount ls ≤ ls.maxWorkspace) :
    entryCount (unloadWorkspaceEntry env ls dir) ≤ ls.maxWorkspace ∧
    (unloadWorkspaceEntry env ls dir).maxWorkspace = ls.maxWorkspace := by
  cases hh : ls.languageServerHandlers with
  | none => simpa [unloadWorkspaceEntry, hh] using hinv
  | some hs =>
    cases hb : ls.builtinWorkspaceFolders with
    | true => simpa [unloadWorkspaceEntry, hh, hb] using hinv
    | false =>
      cases hs with
      | single h => simpa [unloadWorkspaceEntry, hh, hb] using hinv
      | map m =>
        cases hl : alLookup m (env.realpath dir) with
        | none => simpa [unloadWorkspaceEntry, hh, hb, hl] using hinv
        | some h =>
          have : (alErase m (env.realpath dir)).length ≤ m.length :=
            alErase_length_le _ _
          have hm : m.length ≤ ls.maxWorkspace := by simpa [entryCount, hh] using hinv
          simp only [unloadWorkspaceEntry, hh, hb, hl, entryCount]
          constructor
          · exact le_trans this hm
          · rfl

theorem runOps_entryCount (env : Env) (ops : List PoolOp) :
    ∀ (ls : LanguageServerData) (nid : Nat), entryCount ls ≤ ls.maxWorkspace →
      entryCount (runOps env ops (ls, nid)).1 ≤ (runOps env ops (ls, nid)).1.maxWorkspace ∧
      (runOps env ops (ls, nid)).1.maxWorkspace = ls.maxWorkspace := by
  induction ops with
  | nil => intro ls nid h; exact ⟨h, rfl⟩
  | cons op ops ih =>
    intro ls nid h
    cases op with
    | dispatchOp req now =>
      have hstep := dispatchToEntry_entryCount { env with now := now } ls req nid h
      have := ih (dispatchToEntry { env with now := now } ls req nid).2.1
        (dispatchToEntry { env with now := now } ls req nid).2.2.1
        (hstep.2 ▸ hstep.1)
      simpa [runOps, hstep.2] using this
    | fochOp ws =>
      have hstep := applyFoch_entryCount env ls nid ws h
      have := ih (applyFoch env ls nid ws).1 (applyFoch env ls nid ws).2
        (hstep.2 ▸ hstep.1)
      simpa [runOps, hstep.2] using this
    | unloadOp dir =>
      have hstep := unloadWorkspaceEntry_entryCount env ls dir h
      have := ih (unloadWorkspaceEntry env ls dir) nid (hstep.2 ▸ hstep.1)
      simpa [runOps, hstep.2] using this

/-- C2: over any sequence of dispatchRequest / findOrCreateHandler /
unloadWorkspace operations on a per-workspace entry, the live-handler count
never exceeds maxWorkspace, and a new proxy is launched (launched flag
true) only when the count before the call is strictly below maxWorkspace. -/
theorem C2_pool_never_exceeds_max (env : Env) (ops : List PoolOp)
    (ls : LanguageServerData) (nid : Nat)
    (hinv : entryCount ls ≤ ls.maxWorkspace) :
    entryCount (runOps env ops (ls, nid)).1 ≤ ls.maxWorkspace ∧
    (∀ (rp : String → String) (mx : Nat) (m : HandlerMap) (k : Nat)
        (ws : Option String) (h : Handler) (m' : HandlerMap) (k' : Nat),
      findOrCreateHandler rp mx m k ws = .ok (h, m', k', true) → m.length < mx) := by
  have hr := runOps_entryCount env ops ls nid hinv
  exact ⟨hr.2 ▸ hr.1,
    fun rp mx m k ws h m' k' he =>
      (findOrCreateHandler_length rp mx m k ws (h, m', k', true) he).2 rfl⟩

def envW : Env :=
  { realpath := rpId, detect := fun _ => none,
    installStatus := fun _ => LanguageServerStatus.READY, detach := false, now := 0 }

def lsW : LanguageServerData :=
  { name := "typescript", builtinWorkspaceFolders := false, maxWorkspace := 2,
    languages := ["typescript"], running := false, languageServerHandlers := none }

def reqAt (ws : String) : LspRequest :=
  { method := "hover", resolvedFilePath := none, workspacePath := some ws,
    isNotification := false }

/-- Witness for C2: three distinct workspaces dispatched into a capacity-2
entry, then an unload and a direct findOrCreateHandler; the count stays at
most 2. -/
theorem C2_witness :
    entryCount (runOps envW
      [.dispatchOp (reqAt "a") 1, .dispatchOp (reqAt "b") 2, .dispatchOp (reqAt "c") 3,
       .unloadOp "a", .fochOp (some "d")] (lsW, 0)).1 ≤ lsW.maxWorkspace :=
  (C2_pool_never_exceeds_max envW
    [.dispatchOp (reqAt "a") 1, .dispatchOp (reqAt "b") 2, .dispatchOp (reqAt "c") 3,
     .unloadOp "a", .fochOp (some "d")] lsW 0 (by decide)).1

def rpLink : String → String := fun s => if s == "link" then "real" else s

/-- C3 (failing evaluation): a capacity-1 pool at capacity, asked for
workspace path "link" whose canonical path is "real": the eviction branch
re-registers the reused handler under the raw path "link"
(controller.ts:226), so the subsequent lookup of the canonical path "real"
misses, contradicting the claim that both branches register under the
canonicalized workspace path. -/
theorem C3_eviction_registers_raw_not_canonical :
    findOrCreateHandler rpLink 1 [("w0", ⟨0, some 0⟩)] 5 (some "link") =
      .ok (⟨0, some 0⟩, [("link", ⟨0, some 0⟩)], 5, false) ∧
    alLookup [("link", (⟨0, some 0⟩ : Handler))] (rpLink "link") = none := by
  decide

/-- C4: message ids come from the proxy-local sequence counter starting at
the current value and are post-incremented per call; for response-expecting
requests the continuation is registered in the replies table under exactly
that id before the message is emitted (event order), so the table resolves
either reply to the correct caller regardless of arrival order. -/
theorem C4_sequence_ids_and_reply_registration (st : ProxyState) (c₁ c₂ : Nat) :
    (receiveRequest st c₁ false).messageId = st.sequenceNumber ∧
    (receiveRequest (receiveRequest st c₁ false).state c₂ false).messageId =
      st.sequenceNumber + 1 ∧
    (receiveRequest st c₁ false).state.sequenceNumber = st.sequenceNumber + 1 ∧
    (receiveRequest (receiveRequest st c₁ false).state c₂ false).state.sequenceNumber =
      st.sequenceNumber + 2 ∧
    (receiveRequest st c₁ false).events =
      [.registeredReply st.sequenceNumber, .emittedMessage st.sequenceNumber] ∧
    (receiveRequest (receiveRequest st c₁ false).state c₂ false).events =
      [.registeredReply (st.sequenceNumber + 1), .emittedMessage (st.sequenceNumber + 1)] ∧
    alLookup (receiveRequest (receiveRequest st c₁ false).state c₂ false).state.replies
      (st.sequenceNumber + 1) = some c₂ ∧
    alLookup (receiveRequest (receiveRequest st c₁ false).state c₂ false).state.replies
      st.sequenceNumber = some c₁ := by
  refine ⟨rfl, rfl, rfl, rfl, rfl, rfl, ?_, ?_⟩
  · exact alSet_lookup_self _ _ _
  · rw [show (receiveRequest (receiveRequest st c₁ false).state c₂ false).state.replies =
        alSet (alSet st.replies st.sequenceNumber c₁) (st.sequenceNumber + 1) c₂ from rfl,
      alSet_lookup_ne _ _ _ _ (by omega)]
    exact alSet_lookup_self _ _ _

/-- C5: for a language with a configured definition whose backend is not
READY, dispatchRequest rejects with LanguageServerNotInstalled when the
detach flag is off, and with the flag on the readiness check is bypassed
and dispatch proceeds into the entry; for a language with no configured
definition it rejects with UnknownFileLanguage. -/
theorem C5_not_installed_and_unknown_language (env : Env)
    (lsMap : String → Option LanguageServerData) (lang : String)
    (request : LspRequest) (nextId : Nat) :
    (∀ ls, lsMap lang = some ls →
      env.installStatus ls.name ≠ LanguageServerStatus.READY →
      (env.detach = false →
        dispatchRequest env lsMap (some lang) request nextId =
          (.error (.response ⟨.LanguageServerNotInstalled,
            "language server " ++ lang ++ " not installed"⟩), none, nextId, false)) ∧
      (env.detach = true →
        dispatchRequest env lsMap (some lang) request nextId =
          ((dispatchToEntry env ls request nextId).1,
           some (dispatchToEntry env ls request nextId).2.1,
           (dispatchToEntry env ls request nextId).2.2.1,
           (dispatchToEntry env ls request nextId).2.2.2))) ∧
    (lsMap lang = none →
      dispatchRequest env lsMap (some lang) request nextId =
        (.error (.response ⟨.UnknownFileLanguage, "unsupported language " ++ lang⟩),
         none, nextId, false)) := by
  constructor
  · intro ls hls hnr
    have hbeq : (env.installStatus ls.name == LanguageServerStatus.READY) = false := by
      simp [hnr]
    constructor
    · intro hd
      simp [dispatchRequest, findLanguageServer, hls, hd, hbeq]
    · intro hd
      simp [dispatchRequest, findLanguageServer, hls, hd]
  · intro hnone
    simp [dispatchRequest, findLanguageServer, hnone]

def lsJava : LanguageServerData :=
  { name := "java", builtinWorkspaceFolders := true, maxWorkspace := 2,
    languages := ["java"], running := false, languageServerHandlers := none }

def lsMapW : String → Option LanguageServerData :=
  fun l => if l == "java" then some lsJava else none

def envNI : Env :=
  { realpath := rpId, detect := fun _ => none,
    installStatus := fun _ => LanguageServerStatus.NOT_INSTALLED,
    detach := false, now := 0 }

/-- Witness for C5: with java configured but NOT_INSTALLED and detach off,
dispatch rejects LanguageServerNotInstalled; an unconfigured language
rejects UnknownFileLanguage. -/
theorem C5_witness :
    dispatchRequest envNI lsMapW (some "java") (reqAt "a") 0 =
      (.error (.response ⟨.LanguageServerNotInstalled,
        "language server " ++ "java" ++ " not installed"⟩), none, 0, false) ∧
    dispatchRequest envNI lsMapW (some "zig") (reqAt "a") 0 =
      (.error (.response ⟨.UnknownFileLanguage, "unsupported language " ++ "zig"⟩),
       none, 0, false) :=
  ⟨((C5_not_installed_and_unknown_language envNI lsMapW "java" (reqAt "a") 0).1 lsJava
      (by decide) (by decide)).1 rfl,
   (C5_not_installed_and_unknown_language envNI lsMapW "zig" (reqAt "a") 0).2 (by decide)⟩

def lsMapEmpty : String → Option LanguageServerData := fun _ => none

def reqNoFile : LspRequest :=
  { method := "hover", resolvedFilePath := none, workspacePath := none,
    isNotification := false }

/-- C6 counterexample: a request with no resolvedFilePath at all is
rejected by handleRequest with the generic UnknownErrorCode
(controller.ts:81-83), not with UnknownFileLanguage as the claim states for
that case. -/
theorem C6_counterexample_no_file_is_generic_error :
    failureCode (handleRequest envNI lsMapEmpty reqNoFile 0).1 =
      some LspErrorCode.UnknownErrorCode ∧
    failureCode (handleRequest envNI lsMapEmpty reqNoFile 0).1 ≠
      some LspErrorCode.UnknownFileLanguage := by
  decide

/-- C6 amended: handleRequest rejects with the generic UnknownErrorCode
when the request carries no resolvedFilePath, and with UnknownFileLanguage
when a file is present but language detection yields no language. -/
theorem C6_amended_error_codes (env : Env)
    (lsMap : String → Option LanguageServerData) (request : LspRequest) (nextId : Nat) :
    (request.resolvedFilePath = none →
      handleRequest env lsMap request nextId =
        (.error (.response ⟨.UnknownErrorCode, "cant detect language without a file"⟩),
         none, nextId, false)) ∧
    (∀ f, request.resolvedFilePath = some f →
      env.detect (removeFileScheme f) = none →
      handleRequest env lsMap request nextId =
        (.error (.response ⟨.UnknownFileLanguage, "cant detect language from file"⟩),
         none, nextId, false)) := by
  constructor
  · intro h
    simp [handleRequest, h]
  · intro f hf hd
    simp [handleRequest, hf, hd, dispatchRequest]

def reqFileOnly : LspRequest :=
  { method := "hover", resolvedFilePath := some "file.bin", workspacePath := none,
    isNotification := false }

/-- Witness for C6 (amended): the two error codes at concrete requests. -/
theorem C6_witness :
    handleRequest envNI lsMapEmpty reqNoFile 0 =
      (.error (.response ⟨.UnknownErrorCode, "cant detect language without a file"⟩),
       none, 0, false) ∧
    handleRequest envNI lsMapEmpty reqFileOnly 0 =
      (.error (.response ⟨.UnknownFileLanguage, "cant detect language from file"⟩),
       none, 0, false) :=
  ⟨(C6_amended_error_codes envNI lsMapEmpty reqNoFile 0).1 rfl,
   (C6_amended_error_codes envNI lsMapEmpty reqFileOnly 0).2 "file.bin" rfl (by decide)⟩

/-- C7: a notification resolves immediately and adds nothing to the replies
table (under the invariant that every registered id is below the sequence
counter, its id is not in the table either); a response-expecting request
leaves a pending promise whose id is registered in the table. -/
theorem C7_notification_resolves_immediately (st : ProxyState) (c : Nat)
    (hk : ∀ p ∈ st.replies, p.1 < st.sequenceNumber) :
    (receiveRequest st c true).promise = .resolvedEmpty ∧
    (receiveRequest st c true).state.replies = st.replies ∧
    alLookup (receiveRequest st c true).state.replies
      (receiveRequest st c true).messageId = none ∧
    (receiveRequest st c false).promise = .pending st.sequenceNumber ∧
    alLookup (receiveRequest st c false).state.replies
      (receiveRequest st c false).messageId = some c := by
  refine ⟨rfl, rfl, ?_, rfl, ?_⟩
  · rw [show (receiveRequest st c true).state.replies = st.replies from rfl,
        show (receiveRequest st c true).messageId = st.sequenceNumber from rfl,
        alLookup_eq_none_iff]
    intro p hp
    exact Nat.ne_of_lt (hk p hp)
  · exact alSet_lookup_self _ _ _

def proxyFresh : ProxyState :=
  { sequenceNumber := 0, replies := [], closed := false, clientConnection := none }

/-- Witness for C7: a fresh proxy, notification and request cases. -/
theorem C7_witness :
    (receiveRequest proxyFresh 42 true).promise = .resolvedEmpty ∧
    alLookup (receiveRequest proxyFresh 42 true).state.replies
      (receiveRequest proxyFresh 42 true).messageId = none ∧
    (receiveRequest proxyFresh 42 false).promise = .pending 0 :=
  ⟨(C7_notification_resolves_immediately proxyFresh 42 (by decide)).1,
   (C7_notification_resolves_immediately proxyFresh 42 (by decide)).2.2.1,
   (C7_notification_resolves_immediately proxyFresh 42 (by decide)).2.2.2.1⟩

def envC8 : Env :=
  { realpath := rpLink, detect := fun _ => none,
    installStatus := fun _ => LanguageServerStatus.READY, detach := false, now := 10 }

def lsC8 : LanguageServerData :=
  { name := "typescript", builtinWorkspaceFolders := false, maxWorkspace := 2,
    languages := ["typescript"], running := false,
    languageServerHandlers := some (.map [("w0", ⟨0, some 0⟩), ("w1", ⟨1, some 5⟩)]) }

/-- C8 (failing evaluation): two consecutive dispatches to the same
workspace path "link" (canonical path "real") on a full capacity-2 entry.
The first eviction re-registers proxy 0 under the raw key "link"
(controller.ts:226); the second call looks up the canonical key "real",
misses, evicts again and returns proxy 1 — a different instance — and the
map shrinks from 2 to 1 entries, contradicting the claim that the second
call returns the same proxy with the map otherwise unchanged. -/
theorem C8_same_path_twice_returns_different_proxy :
    resultHandlerId (dispatchToEntry envC8 lsC8 (reqAt "link") 100).1 = some 0 ∧
    resultHandlerId (dispatchToEntry { envC8 with now := 11 }
      (dispatchToEntry envC8 lsC8 (reqAt "link") 100).2.1 (reqAt "link")
      (dispatchToEntry envC8 lsC8 (reqAt "link") 100).2.2.1).1 = some 1 ∧
    entryCount (dispatchToEntry envC8 lsC8 (reqAt "link") 100).2.1 = 2 ∧
    entryCount (dispatchToEntry { envC8 with now := 11 }
      (dispatchToEntry envC8 lsC8 (reqAt "link") 100).2.1 (reqAt "link")
      (dispatchToEntry envC8 lsC8 (reqAt "link") 100).2.2.1).2.1 = 1 := by
  decide

/-- C9 counterexample: on a never-connected proxy, exit() marks it closed,
but a subsequent connect() clears the closed flag and establishes a
connection (proxy.ts:216-252 sets closed = false and dials), contradicting
the claim that no connect() re-establishes a connection after exit(). -/
theorem C9_counterexample_connect_after_exit_reconnects :
    (exit proxyFresh).1.closed = true ∧
    (connect (exit proxyFresh).1 7 true).1.clientConnection = some 7 ∧
    (connect (exit proxyFresh).1 7 true).1.closed = false := by
  decide

/-- C9 amended: exit() sends the shutdown request followed by the exit
notification only when a live client connection exists (a never-connected
proxy skips both without failing), marks the proxy closed, and always emits
the terminal exit signal; however the closed flag does not prevent
reconnection — an explicit connect() on a proxy without a live connection
clears the flag and re-establishes a connection even after exit(). -/
theorem C9_amended_exit_behaviour (st : ProxyState) (n : Nat) :
    (st.clientConnection = none → (exit st).2 = [.exitSignal]) ∧
    (∀ c, st.clientConnection = some c →
      (exit st).2 = [.shutdownRequest, .exitNotification, .disposeConn, .exitSignal]) ∧
    (exit st).1.closed = true ∧
    ExitEvent.exitSignal ∈ (exit st).2 ∧
    (st.clientConnection = none →
      (connect (exit st).1 n true).1.clientConnection = some n ∧
      (connect (exit st).1 n true).1.closed = false) := by
  refine ⟨?_, ?_, ?_, ?_, ?_⟩
  · intro h; simp [exit, h]
  · intro c h; simp [exit, h]
  · cases h : st.clientConnection <;> simp [exit, h]
  · cases h : st.clientConnection <;> simp [exit, h]
  · intro h
    constructor <;> simp [exit, connect, h]

def proxyConn : ProxyState :=
  { sequenceNumber := 3, replies := [], closed := false, clientConnection := some 1 }

/-- Witness for C9 (amended): never-connected and connected proxies. -/
theorem C9_witness :
    (exit proxyFresh).2 = [.exitSignal] ∧
    (exit proxyConn).2 =
      [.shutdownRequest, .exitNotification, .disposeConn, .exitSignal] ∧
    (exit proxyConn).1.closed = true ∧
    (connect (exit proxyFresh).1 9 true).1.clientConnection = some 9 :=
  ⟨(C9_amended_exit_behaviour proxyFresh 9).1 rfl,
   (C9_amended_exit_behaviour proxyConn 9).2.1 1 rfl,
   (C9_amended_exit_behaviour proxyConn 9).2.2.1,
   ((C9_amended_exit_behaviour proxyFresh 9).2.2.2.2 rfl).1⟩

/-- C10: status is total exactly on supported languages; for a language
with no entry in the language-server map it dereferences the definition
field of undefined (a TypeError, modelled as Failure.typeError) instead of
returning a status value, and in particular does not report
UnknownFileLanguage the way dispatch does. -/
theorem C10_status_total_iff_supported (env : Env)
    (lsMap : String → Option LanguageServerData) (lang : String) :
    (supportLanguage lsMap lang = true → (status env lsMap lang).isOk = true) ∧
    (supportLanguage lsMap lang = false →
      status env lsMap lang =
        .error (.typeError "cannot read property definition of undefined") ∧
      failureCode (status env lsMap lang) ≠ some LspErrorCode.UnknownFileLanguage) := by
  constructor
  · intro h
    cases hm : lsMap lang with
    | none => simp [supportLanguage, hm] at h
    | some ls =>
      by_cases hr : (env.installStatus ls.name == LanguageServerStatus.READY) = true
      · cases hrun : ls.running <;> simp [status, hm, hr, hrun, Except.isOk, Except.toBool]
      · simp [status, hm, hr, Except.isOk, Except.toBool]
  · intro h
    have hm : lsMap lang = none := by
      cases hm : lsMap lang with
      | none => rfl
      | some ls => simp [supportLanguage, hm] at h
    exact ⟨by simp [status, hm], by simp [status, hm, failureCode]⟩

/-- Witness for C10: a supported language yields a status, an unsupported
one crashes with the modelled TypeError. -/
theorem C10_witness :
    (status envNI lsMapW "java").isOk = true ∧
    status envNI lsMapW "zig" =
      .error (.typeError "cannot read property definition of undefined") :=
  ⟨(C10_status_total_iff_supported envNI lsMapW "java").1 (by decide),
   ((C10_status_total_iff_supported envNI lsMapW "zig").2 (by decide)).1⟩

end KibanaLsp
